import Mathlib

set_option maxHeartbeats 1000000

/-! Shallow embedding of the job pipeline of `devops_hunter.py` (the DevOps
Hunter scraper), together with proofs of the specified properties of its
relevance filter, job-source adapters and merge-dedup-recency pipeline. -/

/-- A normalized job record, mirroring the dicts built by
`_jobs_greenhouse_board` and `_jobs_lever_search` (the Python dict key of the
last field is the constant tag under the key named "type"). -/
structure Posting where
  title : String
  company : String
  locations : List String
  url : String
  source : String
  date : String
  kind : String
deriving DecidableEq

/-- Case folding as Python `str.lower` applies it; the keyword sets and the
relevant scraped text only exercise the ASCII range. -/
def lowerStr (s : String) : String := String.mk (s.data.map Char.toLower)

/-- Python's substring test `needle in hay` on the underlying characters. -/
def containsSub (needle : List Char) : List Char → Bool
  | [] => needle.isPrefixOf ([] : List Char)
  | c :: t => needle.isPrefixOf (c :: t) || containsSub needle t

/-- The `title_terms` set of `_devops_match` (a Python set; iteration order is
irrelevant to `any`). -/
def title_terms : List String :=
  ["devops", "site reliability", "sre", "platform engineer",
   "platform engineering", "infrastructure engineer",
   "systems engineer", "cloud engineer", "build engineer",
   "release engineer"]

/-- The `desc_terms` set of `_devops_match`. -/
def desc_terms : List String :=
  ["kubernetes", "k8s", "terraform", "ansible", "helm",
   "prometheus", "grafana", "observability", "otel",
   "on-call", "incident", "cicd", "ci/cd", "pipeline",
   "aws", "gcp", "azure", "slo", "sla", "sli"]

/-- `DevOpsHunter._devops_match`: some title keyword occurs in the lowered
title, or some context keyword occurs in the lowered description. -/
def _devops_match (title desc : String) : Bool :=
  let t := (lowerStr title).data
  let d := (lowerStr desc).data
  title_terms.any (fun k => containsSub k.data t) ||
    desc_terms.any (fun k => containsSub k.data d)

/-- The relevance decision as the spec words it in its filter section:
context terms are matched against the title as well as the description.
Stated only for comparison with `_devops_match`, which checks context terms
against the description alone. -/
def devops_match_spec (title desc : String) : Bool :=
  let t := (lowerStr title).data
  let d := (lowerStr desc).data
  title_terms.any (fun k => containsSub k.data t) ||
    desc_terms.any (fun k => containsSub k.data t || containsSub k.data d)

/-- A UTC timestamp as `datetime.utcnow()` produces it: a Gregorian calendar
date plus the second of the day (sub-second precision is irrelevant here). -/
structure DateTime where
  year : Nat
  month : Nat
  day : Nat
  sod : Nat
deriving DecidableEq

/-- Gregorian leap-year rule, as `datetime` applies it when validating a day
of month. -/
def isLeap (y : Nat) : Bool :=
  (y % 4 == 0 && y % 100 != 0) || y % 400 == 0

/-- Length of a month, as the `datetime` constructor validates it. -/
def daysInMonth (y m : Nat) : Nat :=
  if m = 2 then (if isLeap y then 29 else 28)
  else if m = 4 ∨ m = 6 ∨ m = 9 ∨ m = 11 then 30
  else 31

/-- Day count of a civil date (days since 1970-01-01, Hinnant's
`days_from_civil`), used to place calendar dates on the timeline on which
`datetime` comparison and `timedelta` arithmetic operate. -/
def daysFromCivil (y m d : Nat) : Int :=
  let y' := y - (if m ≤ 2 then 1 else 0)
  let era := y' / 400
  let yoe := y' % 400
  let mp := if 3 ≤ m then m - 3 else m + 9
  let doy := (153 * mp + 2) / 5 + d - 1
  let doe := yoe * 365 + yoe / 4 - yoe / 100 + doy
  (↑(era * 146097 + doe) : Int) - 719468

/-- Seconds since the epoch: the total order in which `datetime` values are
compared and shifted by `timedelta`. -/
def toSec (dt : DateTime) : Int :=
  daysFromCivil dt.year dt.month dt.day * 86400 + dt.sod

/-- The character of a single decimal digit. -/
def digitChar (k : Nat) : Char := Char.ofNat (48 + k)

/-- Two zero-padded decimal digits, as `%m` and `%d` format. -/
def pad2 (n : Nat) : List Char := [digitChar (n / 10 % 10), digitChar (n % 10)]

/-- Four zero-padded decimal digits; agrees with the `%Y` output of
`strftime` for years 1000..9999, the only range the theorems use. -/
def fmtYear (y : Nat) : List Char :=
  [digitChar (y / 1000 % 10), digitChar (y / 100 % 10),
   digitChar (y / 10 % 10), digitChar (y % 10)]

/-- `utcnow().strftime("%Y-%m-%d")` as both adapters call it to tag a
posting's date. -/
def fmtDate (dt : DateTime) : String :=
  String.mk (fmtYear dt.year ++ '-' :: (pad2 dt.month ++ '-' :: pad2 dt.day))

/-- Numeric value of a digit character. -/
def charVal (c : Char) : Nat := c.toNat - 48

/-- Decimal digit test. -/
def isDigitCh (c : Char) : Bool := decide (48 ≤ c.toNat ∧ c.toNat ≤ 57)

/-- The `%Y` directive of `_strptime`: exactly four decimal digits. -/
def parseYear4 : List Char → Option (Nat × List Char)
  | a :: b :: c :: e :: rest =>
    if isDigitCh a && isDigitCh b && isDigitCh c && isDigitCh e then
      some (1000 * charVal a + 100 * charVal b + 10 * charVal c + charVal e, rest)
    else none
  | _ => none

/-- The `%m` directive of `_strptime`: the ordered regex alternation for a
month number, one or two digits. -/
def parseMonth : List Char → Option (Nat × List Char)
  | a :: b :: rest =>
    if a = '1' ∧ '0' ≤ b ∧ b ≤ '2' then some (10 + charVal b, rest)
    else if a = '0' ∧ '1' ≤ b ∧ b ≤ '9' then some (charVal b, rest)
    else if '1' ≤ a ∧ a ≤ '9' then some (charVal a, b :: rest)
    else none
  | [a] => if '1' ≤ a ∧ a ≤ '9' then some (charVal a, []) else none
  | [] => none

/-- The `%d` directive of `_strptime`: the ordered regex alternation for a
day number, one or two digits. -/
def parseDay : List Char → Option (Nat × List Char)
  | a :: b :: rest =>
    if a = '3' ∧ '0' ≤ b ∧ b ≤ '1' then some (30 + charVal b, rest)
    else if ('1' ≤ a ∧ a ≤ '2') ∧ ('0' ≤ b ∧ b ≤ '9') then
      some (10 * charVal a + charVal b, rest)
    else if a = '0' ∧ '1' ≤ b ∧ b ≤ '9' then some (charVal b, rest)
    else if '1' ≤ a ∧ a ≤ '9' then some (charVal a, b :: rest)
    else none
  | [a] => if '1' ≤ a ∧ a ≤ '9' then some (charVal a, []) else none
  | [] => none

/-- `datetime.strptime(s, "%Y-%m-%d")`: the three directives separated by
literal dashes, no unconverted trailing data, then the `datetime` constructor
checks (year at least `MINYEAR` and the day fits the month). `none` models a
raised `ValueError`. -/
def parseDate (s : String) : Option (Nat × Nat × Nat) :=
  match parseYear4 s.data with
  | none => none
  | some (y, r1) =>
    match r1 with
    | [] => none
    | c1 :: r2 =>
      if c1 = '-' then
        match parseMonth r2 with
        | none => none
        | some (m, r3) =>
          match r3 with
          | [] => none
          | c2 :: r4 =>
            if c2 = '-' then
              match parseDay r4 with
              | none => none
              | some (d, r5) =>
                if r5 = [] ∧ 1 ≤ y ∧ d ≤ daysInMonth y m then some (y, m, d)
                else none
            else none
      else none

/-- Date resolution in the recency step of `jobs`: `strptime` the stored date
string, substituting `utcnow()` when it raises; a parsed date is a midnight
`datetime`. -/
def resolveDT (now : DateTime) (s : String) : DateTime :=
  match parseDate s with
  | some (y, m, d) => ⟨y, m, d, 0⟩
  | none => now

/-- The comparison `d >= cutoff` of the recency step, with
`cutoff = utcnow() - timedelta(days=60)` (60 days = 5184000 seconds). -/
def keepFresh (now : DateTime) (j : Posting) : Bool :=
  decide (toSec now - 5184000 ≤ toSec (resolveDT now j.date))

/-- The dedup identity key `(j.get("company",""), j.get("title",""),
j.get("url",""))`. -/
def key3 (j : Posting) : String × String × String := (j.company, j.title, j.url)

/-- The dedup loop of `jobs`: a `seen` set of identity keys, first occurrence
kept. The set is modelled as the list of keys inserted so far. -/
def dedupBy : List Posting → List (String × String × String) → List Posting
  | [], _ => []
  | j :: rest, seen =>
    if key3 j ∈ seen then dedupBy rest seen
    else j :: dedupBy rest (key3 j :: seen)

/-- Dedup of the concatenated adapter outputs, starting from an empty seen
set. -/
def dedupJobs (l : List Posting) : List Posting := dedupBy l []

/-- The `seen` set after the dedup loop has run over `l`. -/
def seenAcc : List Posting → List (String × String × String) → List (String × String × String)
  | [], seen => seen
  | j :: rest, seen => seenAcc rest (if key3 j ∈ seen then seen else key3 j :: seen)

/-- The sort key order `(x.get("company",""), x.get("title",""))` under
Python's lexicographic tuple and string comparison. -/
def keyLe (a b : Posting) : Prop :=
  a.company < b.company ∨ (a.company = b.company ∧ a.title ≤ b.title)

instance : DecidableRel keyLe := fun a b => by
  unfold keyLe; infer_instance

/-- The merge-dedup-recency-sort pipeline of `jobs`, applied to the
concatenated adapter outputs (insertion sort is stable, as Python's
`list.sort` is). -/
def jobsPipeline (now : DateTime) (items : List Posting) : List Posting :=
  List.insertionSort keyLe ((dedupJobs items).filter (keepFresh now))

/-- One job object of a Greenhouse board response, with every field already
taken through the defaulting the code applies: `j.get("title") or ""`,
`(j.get("location", {}) or {}).get("name", "")`, `j.get("absolute_url", "")`
and `j.get("content", "") or ""` each collapse a missing or null field to the
empty string. -/
structure GhJob where
  title : String
  locationName : String
  absolute_url : String
  content : String
deriving DecidableEq

/-- A Greenhouse HTTP response: the status, and the decoded job list of the
JSON body (`none` when `r.json()` raises; the `data.get("jobs", [])`
defaulting is folded into the list). -/
structure GhResponse where
  status : Nat
  jobs : Option (List GhJob)
deriving DecidableEq

/-- Text after the first occurrence of `sep`, `none` when `sep` does not
occur. -/
def afterSub (sep : List Char) : List Char → Option (List Char)
  | [] => if sep.isPrefixOf ([] : List Char) then some [] else none
  | c :: t =>
    if sep.isPrefixOf (c :: t) then some ((c :: t).drop sep.length)
    else afterSub sep t

/-- `api_url.split("/boards/")[1].split("/")[0] if "/boards/" in api_url else
"Unknown"`: taking up to the next slash after the first separator occurrence
agrees with the split pair, since the separator itself starts with a slash. -/
def ghCompany (apiUrl : String) : String :=
  match afterSub ("/boards/").data apiUrl.data with
  | some rest => String.mk (rest.takeWhile (fun c => c != '/'))
  | none => "Unknown"

/-- Loop body of `_jobs_greenhouse_board`: required-field check, relevance
check over title and description, then the normalized record tagged with the
formatted current date. -/
def ghPosting (now : DateTime) (company : String) (j : GhJob) : Option Posting :=
  if j.title = "" ∨ j.absolute_url = "" then none
  else if _devops_match j.title j.content = false then none
  else some
    { title := j.title
      company := company
      locations := if j.locationName = "" then [] else [j.locationName]
      url := j.absolute_url
      source := "greenhouse"
      date := fmtDate now
      kind := "job_listing" }

/-- `DevOpsHunter._jobs_greenhouse_board`: a `none` response models a raised
transport error (the broad `except` returns `[]`); a non-200 status returns
`[]` before the body is read; a failed JSON decode also returns `[]`. -/
def _jobs_greenhouse_board (now : DateTime) (apiUrl : String)
    (resp : Option GhResponse) : List Posting :=
  match resp with
  | none => []
  | some r =>
    if r.status ≠ 200 then []
    else
      match r.jobs with
      | none => []
      | some js => js.filterMap (ghPosting now (ghCompany apiUrl))

/-- The `a.posting-btn-submit` element of a Lever posting container: `href`
is `none` when the attribute is absent (the code then defaults it to the
empty string with `link.get("href", "")`). -/
structure LeverLink where
  href : Option String
deriving DecidableEq

/-- One `div.posting` container of the Lever search page, as the four
`select_one` calls see it: `none` means the element is absent, otherwise the
stripped text of the element. -/
structure LeverPost where
  h5text : Option String
  applyLink : Option LeverLink
  companyEl : Option String
  locationEl : Option String
deriving DecidableEq

/-- A Lever search HTTP response: the status and the parsed `div.posting`
containers of the body (`none` when reading the body raises; the markup
parser itself never raises, a page without containers is just `[]`). -/
structure LeverResponse where
  status : Nat
  postings : Option (List LeverPost)
deriving DecidableEq

/-- `[loc.get_text(strip=True)] if loc else []`: the locations list of a
lever posting, built from the optional location element. -/
def leverLocs : Option String → List String
  | some s => [s]
  | none => []

/-- Loop body of `_jobs_lever_search`: skip when the title text is empty or
the apply-link element is missing; relevance over the title only; the url is
the link's `href` attribute defaulted to the empty string. -/
def leverPosting (now : DateTime) (post : LeverPost) : Option Posting :=
  match post.applyLink with
  | none => none
  | some lk =>
    if post.h5text.getD ("") = "" then none
    else if _devops_match (post.h5text.getD ("")) ("") = false then none
    else some
      { title := post.h5text.getD ("")
        company := post.companyEl.getD ("")
        locations := leverLocs post.locationEl
        url := lk.href.getD ("")
        source := "lever"
        date := fmtDate now
        kind := "job_listing" }

/-- `DevOpsHunter._jobs_lever_search` (the search url parameter is used only
for the fetch itself, which the response argument models). -/
def _jobs_lever_search (now : DateTime) (searchUrl : String)
    (resp : Option LeverResponse) : List Posting :=
  match resp with
  | none => []
  | some r =>
    if r.status ≠ 200 then []
    else
      match r.postings with
      | none => []
      | some ps => ps.filterMap (leverPosting now)

/-- `DevOpsHunter.jobs`: fetch every board and every Lever search (the gather
keeps task order, boards first), concatenate the returned lists, then dedup,
recency-filter and sort. -/
def jobs (now : DateTime) (ghResps : List (String × Option GhResponse))
    (leverResps : List (String × Option LeverResponse)) : List Posting :=
  jobsPipeline now
    ((ghResps.map (fun ur => _jobs_greenhouse_board now ur.1 ur.2)).flatten ++
      (leverResps.map (fun ur => _jobs_lever_search now ur.1 ur.2)).flatten)

/-- The denylist of non-organization path segments named by the spec's
discovery section. -/
def denylist : List String :=
  ["privacy", "terms", "blog", "login", "search", "about", "help"]

/-- First path segment of a hyperlink target. -/
def firstSegment (href : String) : String :=
  String.mk ((href.data.dropWhile (fun c => c == '/')).takeWhile (fun c => c != '/'))

/-- Token filter of the discoverer: rejects the empty token (which also
covers a link to the bare root path) and the denylisted segments. -/
def candidateOk (s : String) : Bool := decide (s ≠ "" ∧ s ∉ denylist)

/-- Order-preserving unique accumulation of candidate tokens. -/
def dedupStr : List String → List String → List String
  | [], _ => []
  | s :: rest, seen =>
    if s ∈ seen then dedupStr rest seen else s :: dedupStr rest (s :: seen)

/-- Modelled from the spec: the repository's source has no identifier
discoverer (`jobs` uses a fixed hardcoded list of board URLs), so the
discovery contract `discover(max_pages, max_identifiers)` is modelled from
the spec's discovery section. `pages` lists the hyperlink targets of the root
listing page and its paginated variants in fetch order; at most `maxPages`
pages are read; each link contributes its first path segment as a candidate
token; empty, root and denylisted tokens are rejected; accumulation is
order-preserving and unique, truncated to `maxIdentifiers`. -/
def discover (pages : List (List String)) (maxPages maxIdentifiers : Nat) : List String :=
  (dedupStr (((pages.take maxPages).flatten.map firstSegment).filter candidateOk) []).take
    maxIdentifiers

/-- Output files written by `DevOpsHunter.run(only, html_report)`, in program
order: each selected subsystem saves its own JSON file as soon as it
finishes, then the combined JSON, then the optional HTML report. -/
def runWrites (only : Option String) (htmlReport : Bool) : List String :=
  (if only = none ∨ only = some ("github") then ["github_results_devops.json"] else []) ++
    (if only = none ∨ only = some ("blogs") then ["blog_results_devops.json"] else []) ++
    (if only = none ∨ only = some ("jobs") then ["job_results_devops.json"] else []) ++
    ["devops_combined.json"] ++
    (if htmlReport then ["devops_report.html"] else [])

/-- Files on disk when a top-level interrupt (a `KeyboardInterrupt`, which
`main` catches only to print and exit with status 130) arrives after
`completed` writes have finished: the run performs its writes one after
another and simply stops. -/
def persistedWrites : List String → Nat → List String
  | _, 0 => []
  | [], _ => []
  | w :: ws, n + 1 => w :: persistedWrites ws n

/-- The fetch failures the greenhouse adapter absorbs: a raised transport or
decode error, or a non-success status. -/
def ghFetchFailed (resp : Option GhResponse) : Prop :=
  resp = none ∨ ∃ r, resp = some r ∧ (r.status ≠ 200 ∨ r.jobs = none)

/-- The fetch failures the lever adapter absorbs. -/
def leverFetchFailed (resp : Option LeverResponse) : Prop :=
  resp = none ∨ ∃ r, resp = some r ∧ (r.status ≠ 200 ∨ r.postings = none)

/-- A sane `utcnow()` value: calendar-valid fields, a four-digit year, and a
time of day below 24 hours. -/
def validNow (dt : DateTime) : Prop :=
  1000 ≤ dt.year ∧ dt.year ≤ 9999 ∧ 1 ≤ dt.month ∧ dt.month ≤ 12 ∧
    1 ≤ dt.day ∧ dt.day ≤ daysInMonth dt.year dt.month ∧ dt.sod < 86400

instance : DecidablePred validNow := fun dt => by
  unfold validNow; infer_instance

/-! Helper lemmas. -/

theorem persistedWrites_eq_take (l : List String) : ∀ n, persistedWrites l n = l.take n := by
  induction l with
  | nil => intro n; cases n <;> rfl
  | cons w ws ih =>
    intro n
    cases n with
    | zero => rfl
    | succ n => simp [persistedWrites, ih n]

theorem mem_of_mem_dedupBy {p : Posting} :
    ∀ {l : List Posting} {seen}, p ∈ dedupBy l seen → p ∈ l ∧ key3 p ∉ seen := by
  intro l
  induction l with
  | nil => intro seen h; simp [dedupBy] at h
  | cons j rest ih =>
    intro seen h
    simp only [dedupBy] at h
    split at h
    · obtain ⟨hm, hn⟩ := ih h
      exact ⟨List.mem_cons_of_mem _ hm, hn⟩
    · rcases List.mem_cons.mp h with rfl | h'
      · exact ⟨List.mem_cons_self _ _, by assumption⟩
      · obtain ⟨hm, hn⟩ := ih h'
        exact ⟨List.mem_cons_of_mem _ hm, fun hs => hn (List.mem_cons_of_mem _ hs)⟩

theorem pairwise_dedupBy :
    ∀ (l : List Posting) (seen),
      List.Pairwise (fun a b => key3 a ≠ key3 b) (dedupBy l seen) := by
  intro l
  induction l with
  | nil => intro seen; simp [dedupBy]
  | cons j rest ih =>
    intro seen
    simp only [dedupBy]
    split
    · exact ih seen
    · refine List.Pairwise.cons ?_ (ih _)
      intro b hb he
      have hn := (mem_of_mem_dedupBy hb).2
      exact hn (he ▸ List.mem_cons_self _ _)

theorem find?_dedupBy {p : Posting} :
    ∀ {l : List Posting} {seen}, p ∈ dedupBy l seen →
      l.find? (fun q => decide (key3 q = key3 p)) = some p := by
  intro l
  induction l with
  | nil => intro seen h; simp [dedupBy] at h
  | cons j rest ih =>
    intro seen h
    simp only [dedupBy] at h
    split at h
    · rename_i hin
      have hne : key3 j ≠ key3 p := by
        intro he
        exact (mem_of_mem_dedupBy h).2 (he ▸ hin)
      rw [List.find?_cons_of_neg _ (by simpa using hne)]
      exact ih h
    · rcases List.mem_cons.mp h with rfl | h'
      · exact List.find?_cons_of_pos _ (by simp)
      · have hne : key3 j ≠ key3 p := by
          intro he
          exact (mem_of_mem_dedupBy h').2 (he ▸ List.mem_cons_self _ _)
        rw [List.find?_cons_of_neg _ (by simpa using hne)]
        exact ih h'

theorem dedupBy_append :
    ∀ (l l' : List Posting) (seen),
      dedupBy (l ++ l') seen = dedupBy l seen ++ dedupBy l' (seenAcc l seen) := by
  intro l l'
  induction l with
  | nil => intro seen; simp [dedupBy, seenAcc]
  | cons j rest ih =>
    intro seen
    by_cases hin : key3 j ∈ seen
    · simp only [List.cons_append, dedupBy, seenAcc, if_pos hin]
      exact ih seen
    · simp only [List.cons_append, dedupBy, seenAcc, if_neg hin]
      exact congrArg (fun x => j :: x) (ih (key3 j :: seen))

theorem mem_seenAcc_of_mem {k : String × String × String} :
    ∀ {l : List Posting} {seen}, k ∈ seen → k ∈ seenAcc l seen := by
  intro l
  induction l with
  | nil => intro seen h; simpa [seenAcc] using h
  | cons j rest ih =>
    intro seen h
    simp only [seenAcc]
    split
    · exact ih h
    · exact ih (List.mem_cons_of_mem _ h)

theorem key3_mem_seenAcc {j : Posting} :
    ∀ {l : List Posting} {seen}, j ∈ l → key3 j ∈ seenAcc l seen := by
  intro l
  induction l with
  | nil => intro seen h; simp at h
  | cons a rest ih =>
    intro seen h
    rcases List.mem_cons.mp h with rfl | h'
    · simp only [seenAcc]
      split
      · rename_i hin
        exact mem_seenAcc_of_mem hin
      · exact mem_seenAcc_of_mem (List.mem_cons_self _ _)
    · simp only [seenAcc]
      exact ih h'

theorem dedupBy_eq_nil :
    ∀ {l : List Posting} {seen}, (∀ j ∈ l, key3 j ∈ seen) → dedupBy l seen = [] := by
  intro l
  induction l with
  | nil => intro seen _; rfl
  | cons j rest ih =>
    intro seen h
    simp only [dedupBy]
    rw [if_pos (h j (List.mem_cons_self _ _))]
    exact ih fun a ha => h a (List.mem_cons_of_mem _ ha)

theorem dedupJobs_self_append (l : List Posting) : dedupJobs (l ++ l) = dedupJobs l := by
  unfold dedupJobs
  rw [dedupBy_append]
  rw [dedupBy_eq_nil fun j hj => key3_mem_seenAcc hj]
  simp

instance : IsTotal Posting keyLe := ⟨by
  intro a b
  rcases lt_trichotomy a.company b.company with h | h | h
  · exact Or.inl (Or.inl h)
  · rcases le_total a.title b.title with ht | ht
    · exact Or.inl (Or.inr ⟨h, ht⟩)
    · exact Or.inr (Or.inr ⟨h.symm, ht⟩)
  · exact Or.inr (Or.inl h)⟩

instance : IsTrans Posting keyLe := ⟨by
  intro a b c hab hbc
  rcases hab with h1 | ⟨e1, t1⟩ <;> rcases hbc with h2 | ⟨e2, t2⟩
  · exact Or.inl (h1.trans h2)
  · exact Or.inl (lt_of_lt_of_le h1 (le_of_eq e2))
  · exact Or.inl (lt_of_le_of_lt (le_of_eq e1) h2)
  · exact Or.inr ⟨e1.trans e2, t1.trans t2⟩⟩

theorem mem_jobsPipeline {now : DateTime} {items : List Posting} {p : Posting} :
    p ∈ jobsPipeline now items ↔ p ∈ dedupJobs items ∧ keepFresh now p = true := by
  unfold jobsPipeline
  rw [(List.perm_insertionSort keyLe _).mem_iff, List.mem_filter]

theorem charVal_digitChar {k : Nat} (h : k < 10) : charVal (digitChar k) = k := by
  interval_cases k <;> rfl

theorem isDigitCh_digitChar {k : Nat} (h : k < 10) : isDigitCh (digitChar k) = true := by
  interval_cases k <;> rfl

theorem daysInMonth_le_31 (y m : Nat) : daysInMonth y m ≤ 31 := by
  unfold daysInMonth
  split
  · split <;> omega
  · split <;> omega

theorem parseYear4_fmtYear {y : Nat} (h : y ≤ 9999) (r : List Char) :
    parseYear4 (fmtYear y ++ r) = some (y, r) := by
  have d1 : y / 1000 % 10 < 10 := Nat.mod_lt _ (by norm_num)
  have d2 : y / 100 % 10 < 10 := Nat.mod_lt _ (by norm_num)
  have d3 : y / 10 % 10 < 10 := Nat.mod_lt _ (by norm_num)
  have d4 : y % 10 < 10 := Nat.mod_lt _ (by norm_num)
  simp only [fmtYear, List.cons_append, List.nil_append, parseYear4,
    isDigitCh_digitChar d1, isDigitCh_digitChar d2, isDigitCh_digitChar d3,
    isDigitCh_digitChar d4, Bool.and_self, if_true,
    charVal_digitChar d1, charVal_digitChar d2, charVal_digitChar d3,
    charVal_digitChar d4, Option.some.injEq, Prod.mk.injEq]
  exact ⟨by omega, trivial⟩

theorem parseMonth_pad2 {m : Nat} (h1 : 1 ≤ m) (h2 : m ≤ 12) (r : List Char) :
    parseMonth (pad2 m ++ r) = some (m, r) := by
  interval_cases m <;> rfl

theorem parseDay_pad2 {d : Nat} (h1 : 1 ≤ d) (h2 : d ≤ 31) (r : List Char) :
    parseDay (pad2 d ++ r) = some (d, r) := by
  interval_cases d <;> rfl

theorem parseDate_fmtDate {dt : DateTime} (hv : validNow dt) :
    parseDate (fmtDate dt) = some (dt.year, dt.month, dt.day) := by
  obtain ⟨h1, h2, h3, h4, h5, h6, _⟩ := hv
  have hday : parseDay (pad2 dt.day) = some (dt.day, []) := by
    have := parseDay_pad2 h5 (le_trans h6 (daysInMonth_le_31 _ _)) ([] : List Char)
    simpa using this
  simp only [parseDate, fmtDate, parseYear4_fmtYear h2]
  simp only [parseMonth_pad2 h3 h4, if_pos rfl, hday]
  have hy : 1 ≤ dt.year := by omega
  simp [hy, h6]

theorem keepFresh_of_date_fmt {now : DateTime} (hv : validNow now) {p : Posting}
    (hd : p.date = fmtDate now) : keepFresh now p = true := by
  unfold keepFresh resolveDT
  rw [hd, parseDate_fmtDate hv]
  rw [decide_eq_true_eq]
  show toSec now - 5184000 ≤ toSec ⟨now.year, now.month, now.day, 0⟩
  unfold toSec
  dsimp only
  have hs : (now.sod : Int) < 86400 := by exact_mod_cast hv.2.2.2.2.2.2
  omega

theorem gh_date_eq_fmt {now : DateTime} {apiUrl : String} {resp : Option GhResponse}
    {p : Posting} (h : p ∈ _jobs_greenhouse_board now apiUrl resp) :
    p.date = fmtDate now := by
  rcases resp with _ | r
  · simp [_jobs_greenhouse_board] at h
  · simp only [_jobs_greenhouse_board] at h
    split at h
    · simp at h
    · rcases hj : r.jobs with _ | js
      · rw [hj] at h; simp at h
      · rw [hj] at h
        obtain ⟨j, _, he⟩ := List.mem_filterMap.mp h
        unfold ghPosting at he
        split at he
        · simp at he
        · split at he
          · simp at he
          · rw [Option.some_inj] at he
            rw [← he]

theorem lever_date_eq_fmt {now : DateTime} {url : String} {resp : Option LeverResponse}
    {p : Posting} (h : p ∈ _jobs_lever_search now url resp) :
    p.date = fmtDate now := by
  rcases resp with _ | r
  · simp [_jobs_lever_search] at h
  · simp only [_jobs_lever_search] at h
    split at h
    · simp at h
    · rcases hj : r.postings with _ | ps
      · rw [hj] at h; simp at h
      · rw [hj] at h
        obtain ⟨post, _, he⟩ := List.mem_filterMap.mp h
        unfold leverPosting at he
        split at he
        · simp at he
        · split at he
          · simp at he
          · split at he
            · simp at he
            · rw [Option.some_inj] at he
              rw [← he]

theorem lever_url_of_mem {now : DateTime} {url : String} {resp : Option LeverResponse}
    {p : Posting} (h : p ∈ _jobs_lever_search now url resp) :
    ∃ post : LeverPost, ∃ lk : LeverLink, post.applyLink = some lk ∧ p.url = lk.href.getD ("") := by
  rcases resp with _ | r
  · simp [_jobs_lever_search] at h
  · simp only [_jobs_lever_search] at h
    split at h
    · simp at h
    · rcases hj : r.postings with _ | ps
      · rw [hj] at h; simp at h
      · rw [hj] at h
        obtain ⟨post, _, he⟩ := List.mem_filterMap.mp h
        unfold leverPosting at he
        split at he
        · simp at he
        · rename_i lk hal
          split at he
          · simp at he
          · split at he
            · simp at he
            · rw [Option.some_inj] at he
              exact ⟨post, lk, hal, by rw [← he]⟩

theorem mem_of_mem_dedupStr {s : String} :
    ∀ {l : List String} {seen}, s ∈ dedupStr l seen → s ∈ l := by
  intro l
  induction l with
  | nil => intro seen h; simp [dedupStr] at h
  | cons a rest ih =>
    intro seen h
    simp only [dedupStr] at h
    split at h
    · exact List.mem_cons_of_mem _ (ih h)
    · rcases List.mem_cons.mp h with rfl | h'
      · exact List.mem_cons_self _ _
      · exact List.mem_cons_of_mem _ (ih h')

/-! The claims. -/

/-- C1, counterexample: the title "Kubernetes" contains the context term
"kubernetes" and no title-sufficient term, and the description is empty;
`_devops_match` returns false there, while the spec's wording of the decision
(context terms matched against title or description) yields true. -/
theorem devops_match_context_title_counterexample :
    _devops_match ("Kubernetes") ("") = false ∧
      devops_match_spec ("Kubernetes") ("") = true ∧
      (∃ k ∈ desc_terms, containsSub k.data (lowerStr ("Kubernetes")).data = true) := by
  refine ⟨by decide, by decide, ⟨"kubernetes", by decide, by decide⟩⟩

/-- C1, amended: `_devops_match title desc` is true iff some title-sufficient
term is a case-insensitive substring of the title, or some context term is a
case-insensitive substring of the description alone — a context term
occurring only in the title does not make the result true. -/
theorem devops_match_characterization (title desc : String) :
    _devops_match title desc = true ↔
      ((∃ k ∈ title_terms, containsSub k.data (lowerStr title).data = true) ∨
        (∃ k ∈ desc_terms, containsSub k.data (lowerStr desc).data = true)) := by
  simp [_devops_match]

/-- C2: evaluating the run at the failing input — a Lever search page whose
single posting container titled "DevOps Engineer" has an apply-link element
carrying no href attribute — the final merged job result contains a posting
whose url is the empty string: the adapter does not discard the record, so
the non-empty-url invariant is violated. -/
theorem lever_hrefless_empty_url_reaches_merge :
    (jobs ⟨2026, 10, 12, 0⟩ []
        [("https://jobs.lever.co/search?commit=1&query=devops",
          some ⟨200, some [⟨some ("DevOps Engineer"), some ⟨none⟩, none, none⟩]⟩)]).map
      Posting.url = [""] := by
  decide

/-- C3, counterexample: interrupting a full run (`only = None`, no report)
after its first completed write leaves exactly the GitHub subsystem file on
disk — neither no artifact nor all artifacts — refuting all-or-none
persistence of a run's outputs. -/
theorem interrupt_partial_write_counterexample :
    persistedWrites (runWrites none false) 1 ≠ [] ∧
      persistedWrites (runWrites none false) 1 ≠ runWrites none false := by
  exact ⟨by decide, by decide⟩

/-- C3, amended: a top-level interrupt aborts the remainder of the run but
rolls nothing back — after an interrupt that allowed `n` completed writes,
the files on disk are exactly the first `n` output files of the run's write
sequence; in particular, per-subsystem JSON files written before the
interrupt remain on disk. -/
theorem interrupt_persists_write_prefix (only : Option String) (htmlReport : Bool) (n : Nat) :
    persistedWrites (runWrites only htmlReport) n = (runWrites only htmlReport).take n :=
  persistedWrites_eq_take _ n

/-- C4 (discoverer modelled from the spec; the source has none): `discover`
returns at most `maxIdentifiers` candidates and never a denylisted path
segment, for all inputs and bounds. -/
theorem discover_bounded_and_denylist_free
    (pages : List (List String)) (maxPages maxIdentifiers : Nat) :
    (discover pages maxPages maxIdentifiers).length ≤ maxIdentifiers ∧
      ∀ s ∈ discover pages maxPages maxIdentifiers, s ∉ denylist := by
  constructor
  · exact List.length_take_le _ _
  · intro s hs
    have hs1 := List.mem_of_mem_take hs
    have hs2 := mem_of_mem_dedupStr hs1
    have hok := (List.mem_filter.mp hs2).2
    exact (of_decide_eq_true hok).2

/-- C4, witness at a concrete crawl. -/
theorem discover_bounded_and_denylist_free_witness :
    (discover [["/acme/jobs", "/privacy", "/acme/jobs", "/globex"]] 1 2).length ≤ 2 ∧
      ("acme" : String) ∉ denylist :=
  ⟨(discover_bounded_and_denylist_free [["/acme/jobs", "/privacy", "/acme/jobs", "/globex"]] 1 2).1,
    (discover_bounded_and_denylist_free [["/acme/jobs", "/privacy", "/acme/jobs", "/globex"]] 1 2).2
      ("acme") (by decide)⟩

/-- C5: identity keys in the final merged result are pairwise distinct, and
every posting of the result is the first posting bearing its key in the
first-seen concatenation order of the adapter outputs. -/
theorem merge_keys_distinct_first_wins (now : DateTime) (items : List Posting) :
    List.Pairwise (fun a b => key3 a ≠ key3 b) (jobsPipeline now items) ∧
      ∀ p ∈ jobsPipeline now items,
        items.find? (fun q => decide (key3 q = key3 p)) = some p := by
  constructor
  · unfold jobsPipeline
    have hd := pairwise_dedupBy items []
    have hf : List.Pairwise (fun a b => key3 a ≠ key3 b)
        ((dedupJobs items).filter (keepFresh now)) :=
      List.Pairwise.sublist (List.filter_sublist _) hd
    exact ((List.perm_insertionSort keyLe _).pairwise_iff
      (fun {x y} h e => h e.symm)).mpr hf
  · intro p hp
    exact find?_dedupBy (mem_jobsPipeline.mp hp).1

/-- C5, witness: two postings with the same identity key, the first one wins. -/
theorem merge_keys_distinct_first_wins_witness :
    ([(⟨"SRE", "acme", [], "https://a/1", "lever", "2026-10-12", "job_listing"⟩ : Posting),
        ⟨"SRE", "acme", ["Remote"], "https://a/1", "greenhouse", "2026-10-12", "job_listing"⟩].find?
      (fun q => decide (key3 q =
        key3 ⟨"SRE", "acme", [], "https://a/1", "lever", "2026-10-12", "job_listing"⟩))) =
      some ⟨"SRE", "acme", [], "https://a/1", "lever", "2026-10-12", "job_listing"⟩ :=
  (merge_keys_distinct_first_wins ⟨2026, 10, 12, 0⟩
      [⟨"SRE", "acme", [], "https://a/1", "lever", "2026-10-12", "job_listing"⟩,
        ⟨"SRE", "acme", ["Remote"], "https://a/1", "greenhouse", "2026-10-12", "job_listing"⟩]).2
    ⟨"SRE", "acme", [], "https://a/1", "lever", "2026-10-12", "job_listing"⟩ (by decide)

/-- C6: membership in the final result is exactly dedup-membership plus the
resolved date lying within 60 days of the run's current time; every surviving
posting satisfies the cutoff, and a posting whose date does not parse is
never dropped by the recency step (its resolved date is the current time). -/
theorem recency_filter_characterization (now : DateTime) (items : List Posting) :
    (∀ p : Posting, p ∈ jobsPipeline now items ↔
        p ∈ dedupJobs items ∧ toSec now - 5184000 ≤ toSec (resolveDT now p.date)) ∧
      (∀ p ∈ jobsPipeline now items, toSec now - 5184000 ≤ toSec (resolveDT now p.date)) ∧
      (∀ p : Posting, p ∈ dedupJobs items → parseDate p.date = none →
        p ∈ jobsPipeline now items) := by
  have hmem : ∀ p : Posting, p ∈ jobsPipeline now items ↔
      p ∈ dedupJobs items ∧ toSec now - 5184000 ≤ toSec (resolveDT now p.date) := by
    intro p
    rw [mem_jobsPipeline]
    unfold keepFresh
    rw [decide_eq_true_eq]
  refine ⟨hmem, fun p hp => ((hmem p).mp hp).2, fun p hd hparse => (hmem p).mpr ⟨hd, ?_⟩⟩
  unfold resolveDT
  rw [hparse]
  dsimp only
  omega

/-- C6, witness: a posting with an unparsable date is retained. -/
theorem recency_filter_characterization_witness :
    (⟨"t", "c", [], "u", "lever", "not-a-date", "job_listing"⟩ : Posting) ∈
      jobsPipeline ⟨2026, 10, 12, 0⟩
        [⟨"t", "c", [], "u", "lever", "not-a-date", "job_listing"⟩] :=
  (recency_filter_characterization ⟨2026, 10, 12, 0⟩
      [⟨"t", "c", [], "u", "lever", "not-a-date", "job_listing"⟩]).2.2
    ⟨"t", "c", [], "u", "lever", "not-a-date", "job_listing"⟩ (by decide) (by decide)

/-- C7: each adapter absorbs every fetch failure — a raised transport or
decode error, or a non-success status — and returns the empty list instead of
propagating it. -/
theorem adapters_error_to_empty (now : DateTime) (apiUrl : String)
    (resp : Option GhResponse) (url : String) (lresp : Option LeverResponse) :
    (ghFetchFailed resp → _jobs_greenhouse_board now apiUrl resp = []) ∧
      (leverFetchFailed lresp → _jobs_lever_search now url lresp = []) := by
  constructor
  · intro hf
    rcases hf with rfl | ⟨r, rfl, hr⟩
    · rfl
    · rcases hr with hs | hjn
      · simp [_jobs_greenhouse_board, hs]
      · simp [_jobs_greenhouse_board, hjn]
  · intro hf
    rcases hf with rfl | ⟨r, rfl, hr⟩
    · rfl
    · rcases hr with hs | hpn
      · simp [_jobs_lever_search, hs]
      · simp [_jobs_lever_search, hpn]

/-- C7, witness: the transport-error case of both adapters. -/
theorem adapters_error_to_empty_witness :
    ghFetchFailed none ∧ leverFetchFailed none ∧
      _jobs_greenhouse_board ⟨2026, 10, 12, 0⟩ ("u") none = [] ∧
      _jobs_lever_search ⟨2026, 10, 12, 0⟩ ("u") none = [] :=
  ⟨Or.inl rfl, Or.inl rfl,
    (adapters_error_to_empty ⟨2026, 10, 12, 0⟩ ("u") none ("u") none).1 (Or.inl rfl),
    (adapters_error_to_empty ⟨2026, 10, 12, 0⟩ ("u") none ("u") none).2 (Or.inl rfl)⟩

/-- C8: the final merged result is sorted non-decreasingly by the pair
(company, title) in lexicographic string order, for every input. -/
theorem merge_sorted_by_company_title (now : DateTime) (items : List Posting) :
    List.Sorted keyLe (jobsPipeline now items) :=
  List.sorted_insertionSort keyLe _

/-- C9: merging the same adapter outputs presented twice yields exactly the
same ordered result as merging them once. -/
theorem merge_idempotent (now : DateTime) (outs : List (List Posting)) :
    jobsPipeline now ((outs ++ outs).flatten) = jobsPipeline now outs.flatten := by
  unfold jobsPipeline
  rw [List.flatten_append, dedupJobs_self_append]

/-- C10: every posting either adapter emits carries the current run date
formatted as the `%Y-%m-%d` string (never the source's own publication
date), and any posting so dated passes the 60-day recency comparison, so the
recency filter drops no adapter-produced posting. -/
theorem adapter_dates_current_and_fresh (now : DateTime) (hv : validNow now)
    (apiUrl : String) (resp : Option GhResponse) (url : String)
    (lresp : Option LeverResponse) :
    (∀ p ∈ _jobs_greenhouse_board now apiUrl resp, p.date = fmtDate now) ∧
      (∀ p ∈ _jobs_lever_search now url lresp, p.date = fmtDate now) ∧
      (∀ p : Posting, p.date = fmtDate now → keepFresh now p = true) :=
  ⟨fun _ hp => gh_date_eq_fmt hp, fun _ hp => lever_date_eq_fmt hp,
    fun _ hd => keepFresh_of_date_fmt hv hd⟩

/-- C10, witness at a concrete run time and posting. -/
theorem adapter_dates_current_and_fresh_witness :
    validNow ⟨2026, 10, 12, 43200⟩ ∧
      keepFresh ⟨2026, 10, 12, 43200⟩
        ⟨"SRE", "acme", [], "https://a/1", "lever", "2026-10-12", "job_listing"⟩ = true :=
  ⟨by decide,
    (adapter_dates_current_and_fresh ⟨2026, 10, 12, 43200⟩ (by decide) ("u") none ("u")
        none).2.2
      ⟨"SRE", "acme", [], "https://a/1", "lever", "2026-10-12", "job_listing"⟩ (by decide)⟩
